import Mathlib

/-! Verification of the YouTube-Insight-Bot repository.

Shallow embedding of the two source files `youtube_transcript.py` and
`RAG_chatbot.py`, together with proofs and refutations of the frozen
claims about the natural-language specification.

Python strings are modelled as Lean `String` (operated on mostly through
their underlying `List Char`), Python floats as `ℚ` (every float is a
dyadic rational, and all arithmetic the code performs on the values in
the claims is exact), Python lists as Lean `List`, exceptions as
`Except`, and every external capability (Cohere rerank, OpenAI LLM,
FAISS search, caption fetch) as an explicit outcome parameter.
-/

namespace YT

/-! ## String helpers mirroring the Python `str` operations used -/

/-- Membership test `sub in s` on the underlying character lists:
`needle` occurs as a contiguous run inside `hay`. -/
def infixOf (needle : List Char) : List Char → Bool
  | [] => needle.isEmpty
  | c :: t => needle.isPrefixOf (c :: t) || infixOf needle t

/-- Python `sub in s` for strings. -/
def containsStr (s sub : String) : Bool := infixOf sub.data s.data

/-- Python `s.split(sep)` for a one-character separator `sep`
(all separators in the source are one character: `/ ? # & =`).
Like Python, the result is never empty and keeps empty pieces. -/
def charSplit (sep : Char) : List Char → List (List Char)
  | [] => [[]]
  | c :: t =>
    if c = sep then [] :: charSplit sep t
    else match charSplit sep t with
      | [] => [[c]]
      | piece :: rest => (c :: piece) :: rest

/-- Python `s.split(sep, 1)`: the part before the first `sep`, and
(if `sep` occurs) the part after it. -/
def splitFirst (sep : Char) : List Char → List Char × Option (List Char)
  | [] => ([], none)
  | c :: t =>
    if c = sep then ([], some t)
    else match splitFirst sep t with
      | (piece, rest) => (c :: piece, rest)

/-! ## `extract_video_id` (youtube_transcript.py lines 5–15)

The only Python exception this function can raise is the `KeyError`
from `parse_qs(parsed_url.query)['v']` when the query string carries no
`v` parameter (`parse_qs` only ever maps a key to a non-empty list, so
the subsequent `[0]` never fails); it is modelled with `Except`. -/

/-- A Python exception escaping the transcript script. -/
inductive PyErr where
  | keyError (key : String)
deriving DecidableEq, Repr

/-- The query component of a URL as `urllib.parse.urlparse` extracts it:
everything after the first `?` of the part that precedes the first `#`. -/
def urlQuery (url : List Char) : List Char :=
  let beforeFrag := (splitFirst '#' url).1
  match (splitFirst '?' beforeFrag).2 with
  | none => []
  | some q => q

/-- One `%XX` step of `urllib.parse.unquote`: decode a two-hex-digit
escape into the corresponding character, leaving malformed escapes
untouched.  (Modelled for single-byte escapes; the multi-byte UTF-8
percent sequences Python additionally decodes do not occur in any input
considered here.)  Python's `unquote_plus` furthermore maps `+` to a
space. -/
def hexVal? (c : Char) : Option ℕ :=
  if '0' ≤ c ∧ c ≤ '9' then some (c.toNat - 48)
  else if 'a' ≤ c ∧ c ≤ 'f' then some (c.toNat - 87)
  else if 'A' ≤ c ∧ c ≤ 'F' then some (c.toNat - 55)
  else none

/-- `urllib.parse.unquote_plus` on the character list (see `hexVal?`). -/
def unquotePlus : List Char → List Char
  | [] => []
  | '+' :: t => ' ' :: unquotePlus t
  | '%' :: a :: b :: t =>
    match hexVal? a, hexVal? b with
    | some ha, some hb => Char.ofNat (16 * ha + hb) :: unquotePlus t
    | _, _ => '%' :: unquotePlus (a :: b :: t)
  | c :: t => c :: unquotePlus t

/-- `urllib.parse.parse_qs(query)[key]` with the default settings:
split the query on `&`, drop empty fields, split each field at the
first `=`, drop fields without `=` or with an empty value, decode
name and value with `unquote_plus`, and collect the values bound to
`key` in order. -/
def parseQsValues (query : List Char) (key : List Char) : List (List Char) :=
  (charSplit '&' query).filterMap fun field =>
    if field.isEmpty then none
    else match splitFirst '=' field with
      | (_, none) => none
      | (name, some value) =>
        if value.isEmpty then none
        else if unquotePlus name = key then some (unquotePlus value) else none

/-- `extract_video_id` (youtube_transcript.py lines 5–15).  A raised
`KeyError` is an `Except.error`. -/
def extract_video_id (youtube_url : String) : Except PyErr String :=
  if containsStr youtube_url "youtu.be" then
    -- youtube_url.split("/")[-1].split("?")[0]
    Except.ok (String.mk ((charSplit '?' ((charSplit '/' youtube_url.data).getLastD [])).headD []))
  else if containsStr youtube_url "youtube.com/watch" then
    match parseQsValues (urlQuery youtube_url.data) "v".data with
    | [] => Except.error (PyErr.keyError "v")
    | v :: _ => Except.ok (String.mk v)
  else
    -- If the input is just the ID
    Except.ok youtube_url

/-! ## Caption entries and `format_time` (youtube_transcript.py lines 57–64)

Caption timestamps are Python floats; they are modelled as rationals
(every float is a dyadic rational and all arithmetic the code performs
on the values appearing in the claims is exact). -/

/-- One timed caption line as returned by the captioning capability:
a dict `{'text': ..., 'start': ..., 'duration': ...}`. -/
structure CaptionEntry where
  text : String
  start : ℚ
  duration : ℚ
deriving DecidableEq, Repr

/-- Python `int()` on a float: truncation toward zero. -/
def pyInt (q : ℚ) : ℤ := if 0 ≤ q then ⌊q⌋ else -⌊-q⌋

/-- Python `%` on floats (for a positive right operand):
`a % b = a - b * floor(a / b)`. -/
def pyMod (a b : ℚ) : ℚ := a - b * ⌊a / b⌋

/-- Python `f"{n:0wd}"`: decimal rendering left-padded with zeros to
width `w`, the padding going between the sign and the digits. -/
def fmt0d (w : ℕ) (n : ℤ) : String :=
  let sign := if n < 0 then "-" else ""
  let digits := toString n.natAbs
  sign ++ String.mk (List.replicate (w - (sign.length + digits.length)) '0') ++ digits

/-- `format_time` (youtube_transcript.py lines 57–64): render seconds
in SRT time format `HH:MM:SS,mmm`. -/
def format_time (seconds : ℚ) : String :=
  let hours := pyInt (seconds / 3600)
  let minutes := pyInt (pyMod seconds 3600 / 60)
  let secondsR := pyMod seconds 60
  let milliseconds := pyInt ((secondsR - (pyInt secondsR : ℚ)) * 1000)
  fmt0d 2 hours ++ ":" ++ fmt0d 2 minutes ++ ":" ++ fmt0d 2 (pyInt secondsR) ++ "," ++ fmt0d 3 milliseconds

/-- Modelled from the spec (§4.7): "integer hours (no cap/wrap beyond
24), integer minutes mod 60, integer seconds mod 60, milliseconds =
fractional-second remainder rounded down to nearest whole millisecond",
rendered as `HH:MM:SS,mmm`. -/
def format_time_spec (q : ℚ) : String :=
  fmt0d 2 ⌊q / 3600⌋ ++ ":" ++ fmt0d 2 (⌊q / 60⌋ % 60) ++ ":" ++ fmt0d 2 (⌊q⌋ % 60) ++ "," ++
    fmt0d 3 ⌊(q - (⌊q⌋ : ℚ)) * 1000⌋

/-! ## The structured (`json`) rendering: `json.dumps(transcript, indent=2)`

`json.dumps` with the default `ensure_ascii=True` escapes `"`, `\`,
the named control characters, every other character below `0x20`, and
every character above `0x7e` (astral characters as a UTF-16 surrogate
pair), and renders a float through its shortest round-tripping decimal
representation.  The decimal rendering is modelled exactly for every
value whose denominator divides a power of ten — which covers every
Python float. -/

/-- Lowercase hexadecimal digit for `n < 16`. -/
def hexDigitChar (n : ℕ) : Char :=
  if n < 10 then Char.ofNat (48 + n) else Char.ofNat (87 + n)

/-- Four-digit lowercase hexadecimal rendering of `n < 0x10000`. -/
def hex4 (n : ℕ) : List Char :=
  [hexDigitChar (n / 4096 % 16), hexDigitChar (n / 256 % 16),
   hexDigitChar (n / 16 % 16), hexDigitChar (n % 16)]

/-- The JSON escape of one character under `ensure_ascii=True`
(CPython `py_encode_basestring_ascii`). -/
def escapeChar (c : Char) : List Char :=
  if c = '"' then ['\\', '"']
  else if c = '\\' then ['\\', '\\']
  else if c = '\n' then ['\\', 'n']
  else if c = '\r' then ['\\', 'r']
  else if c = '\t' then ['\\', 't']
  else if c.toNat = 8 then ['\\', 'b']
  else if c.toNat = 12 then ['\\', 'f']
  else if c.toNat < 32 then '\\' :: 'u' :: hex4 c.toNat
  else if c.toNat < 127 then [c]
  else if c.toNat < 65536 then '\\' :: 'u' :: hex4 c.toNat
  else
    ('\\' :: 'u' :: hex4 (55296 + (c.toNat - 65536) / 1024)) ++
    ('\\' :: 'u' :: hex4 (56320 + (c.toNat - 65536) % 1024))

/-- Escape every character of a string body. -/
def escapeChars : List Char → List Char
  | [] => []
  | c :: t => escapeChar c ++ escapeChars t

/-- A JSON string literal: quoted escaped body. -/
def renderJString (s : List Char) : List Char := '"' :: (escapeChars s ++ ['"'])

/-- Multiplicity of the factor `p ≥ 2` in `n ≥ 1` (and `0` otherwise);
fuel-driven so that it reduces in the kernel, `fuel ≥ n` suffices. -/
def factorCountAux (p : ℕ) : ℕ → ℕ → ℕ
  | 0, _ => 0
  | fuel + 1, n => if 2 ≤ p ∧ p ∣ n ∧ n ≠ 0 then factorCountAux p fuel (n / p) + 1 else 0

/-- Multiplicity of the factor `p ≥ 2` in `n ≥ 1` (and `0` otherwise). -/
def factorCount (p : ℕ) (n : ℕ) : ℕ := factorCountAux p n n

/-- The number of decimal digits needed after the point for a value
with denominator `den`: enough tens to absorb all factors 2 and 5. -/
def decExp (den : ℕ) : ℕ := max (factorCount 2 den) (factorCount 5 den)

/-- Decimal mantissa: when `q.den` divides `10 ^ decExp q.den` (true of
every float value), `q = decMant q / 10 ^ decExp q.den`. -/
def decMant (q : ℚ) : ℤ := q.num * (((10 ^ decExp q.den) / q.den : ℕ) : ℤ)

/-- Big-endian decimal digits of `n` (fuel-driven so that it reduces
in the kernel; `fuel ≥ n` suffices). -/
def natToCharsAux : ℕ → ℕ → List Char
  | 0, _ => []
  | _ + 1, 0 => []
  | fuel + 1, n => Char.ofNat (48 + n % 10) :: natToCharsAux fuel (n / 10)

/-- Decimal rendering of a natural number (`natToCharsAux` is
little-endian-first, so reverse). -/
def natToChars (n : ℕ) : List Char :=
  if n = 0 then ['0'] else (natToCharsAux n n).reverse

/-- Zero-pad a digit run on the left to width `w`. -/
def padZeros (w : ℕ) (l : List Char) : List Char :=
  List.replicate (w - l.length) '0' ++ l

/-- Decimal rendering of a float value: sign, integer part, a point,
and the fractional digits (at least one, as Python's float repr always
shows a fractional part). Exact for every value whose denominator
divides a power of ten. -/
def renderNum (q : ℚ) : List Char :=
  let e := decExp q.den
  let n := (decMant q).natAbs
  let sign : List Char := if q.num < 0 then ['-'] else []
  let frac := if e = 0 then ['0'] else padZeros e (natToChars (n % 10 ^ e))
  sign ++ natToChars (n / 10 ^ e) ++ '.' :: frac

/-- The opening of one indented entry object up to the `text` value. -/
def entryOpenTok : List Char := "  \x7b\n    \"text\": ".data

/-- The separator between the `text` value and the `start` value. -/
def startKeyTok : List Char := ",\n    \"start\": ".data

/-- The separator between the `start` value and the `duration` value. -/
def durationKeyTok : List Char := ",\n    \"duration\": ".data

/-- The closing of one indented entry object. -/
def entryCloseTok : List Char := "\n  \x7d".data

/-- One entry object of `json.dumps(transcript, indent=2)`: keys in
dict insertion order `text`, `start`, `duration`. -/
def jsonEntry (e : CaptionEntry) : List Char :=
  entryOpenTok ++ renderJString e.text.data ++
  startKeyTok ++ renderNum e.start ++
  durationKeyTok ++ renderNum e.duration ++ entryCloseTok

/-- The comma-separated entry objects. -/
def jsonBody : List CaptionEntry → List Char
  | [] => []
  | [e] => jsonEntry e
  | e :: t => jsonEntry e ++ ",\n".data ++ jsonBody t

/-- `json.dumps(transcript, indent=2)`. -/
def jsonDumps (l : List CaptionEntry) : String :=
  if l.isEmpty then "[]" else String.mk ("[\n".data ++ jsonBody l ++ "\n]".data)

/-! ## A parser for the structured serialization

Modelled from the spec: §8.7 requires "serializing then parsing back an
entry list reproduces identical field values", but the repository
contains no parser (the serialization side is `json.dumps`); the
following standard JSON reader for the shape produced above stands in
for the missing parsing direction. -/

/-- Consume an expected literal token. -/
def expectTok : List Char → List Char → Option (List Char)
  | [], input => some input
  | _ :: _, [] => none
  | t :: ts, c :: cs => if c = t then expectTok ts cs else none

/-- Consume a maximal run of decimal digits, extending the accumulated
value `acc` and digit count `cnt`; returns (value, count, rest). -/
def parseDigitsAux : List Char → ℕ → ℕ → ℕ × ℕ × List Char
  | [], acc, cnt => (acc, cnt, [])
  | c :: cs, acc, cnt =>
    if c.isDigit then parseDigitsAux cs (acc * 10 + (c.toNat - 48)) (cnt + 1)
    else (acc, cnt, c :: cs)

/-- Parse a JSON number (optional minus sign, integer digits, optional
point and fraction digits) into its rational value. -/
def parseNumber (input : List Char) : Option (ℚ × List Char) :=
  let neg : Bool := input.head? = some '-'
  let body : List Char := if neg then input.tail else input
  match parseDigitsAux body 0 0 with
  | (ip, ipCnt, rest1) =>
    if ipCnt = 0 then none
    else
      match rest1 with
      | '.' :: rest2 =>
        match parseDigitsAux rest2 0 0 with
        | (fp, fpCnt, rest3) =>
          if fpCnt = 0 then none
          else
            let v : ℚ := mkRat (ip * 10 ^ fpCnt + fp) (10 ^ fpCnt)
            some (if neg then -v else v, rest3)
      | _ => some (if neg then -(ip : ℚ) else (ip : ℚ), rest1)

/-- Decode one escape sequence (after the backslash), including
surrogate-pair `\uXXXX` sequences.  (A lone surrogate escape is
rejected in this model.) -/
def parseEscape : List Char → Option (Char × List Char)
  | '"' :: r => some ('"', r)
  | '\\' :: r => some ('\\', r)
  | '/' :: r => some ('/', r)
  | 'n' :: r => some ('\n', r)
  | 'r' :: r => some ('\r', r)
  | 't' :: r => some ('\t', r)
  | 'b' :: r => some (Char.ofNat 8, r)
  | 'f' :: r => some (Char.ofNat 12, r)
  | 'u' :: a :: b :: cc :: d :: r =>
    match hexVal? a, hexVal? b, hexVal? cc, hexVal? d with
    | some x, some y, some z, some w =>
      let hv := 4096 * x + 256 * y + 16 * z + w
      if 55296 ≤ hv ∧ hv < 56320 then
        match r with
        | '\\' :: 'u' :: a2 :: b2 :: c2 :: d2 :: r2 =>
          match hexVal? a2, hexVal? b2, hexVal? c2, hexVal? d2 with
          | some x2, some y2, some z2, some w2 =>
            let lv := 4096 * x2 + 256 * y2 + 16 * z2 + w2
            if 56320 ≤ lv ∧ lv < 57344 then
              some (Char.ofNat (65536 + (hv - 55296) * 1024 + (lv - 56320)), r2)
            else none
          | _, _, _, _ => none
        | _ => none
      else if 56320 ≤ hv ∧ hv < 57344 then none
      else some (Char.ofNat hv, r)
    | _, _, _, _ => none
  | _ => none

/-- Parse the body of a JSON string literal (after the opening quote)
up to the closing quote, undoing the escapes of `escapeChar`;
fuel-driven (one unit per decoded character, `fuel ≥` the number of
decoded characters plus one suffices). -/
def parseJStringBodyAux : ℕ → List Char → Option (List Char × List Char)
  | 0, _ => none
  | fuel + 1, input =>
    match input with
    | [] => none
    | c :: rest =>
      if c = '"' then some ([], rest)
      else if c = '\\' then
        match parseEscape rest with
        | some (ch, r2) => (fun p => ((ch :: p.1 : List Char), p.2)) <$> parseJStringBodyAux fuel r2
        | none => none
      else (fun p => ((c :: p.1 : List Char), p.2)) <$> parseJStringBodyAux fuel rest

/-- Parse the body of a JSON string literal, with enough fuel for the
whole input. -/
def parseJStringBody (input : List Char) : Option (List Char × List Char) :=
  parseJStringBodyAux input.length input

/-- Parse a JSON string literal including its opening quote. -/
def parseJString : List Char → Option (List Char × List Char)
  | '"' :: rest => parseJStringBody rest
  | _ => none

/-- Parse one serialized entry object. -/
def parseEntry (input : List Char) : Option (CaptionEntry × List Char) := do
  let r1 ← expectTok entryOpenTok input
  let (textChars, r2) ← parseJString r1
  let r3 ← expectTok startKeyTok r2
  let (startV, r4) ← parseNumber r3
  let r5 ← expectTok durationKeyTok r4
  let (durationV, r6) ← parseNumber r5
  let r7 ← expectTok entryCloseTok r6
  some (⟨String.mk textChars, startV, durationV⟩, r7)

/-- Parse a comma-separated run of entry objects (fuel-driven). -/
def parseEntriesAux : ℕ → List Char → Option (List CaptionEntry × List Char)
  | 0, _ => none
  | fuel + 1, input => do
    let (e, r1) ← parseEntry input
    match r1 with
    | ',' :: '\n' :: r2 =>
      match parseEntriesAux fuel r2 with
      | some (es, r3) => some (e :: es, r3)
      | none => none
    | _ => some ([e], r1)

/-- Parse the whole serialized entry list. -/
def parseEntries (input : List Char) : Option (List CaptionEntry × List Char) :=
  match input with
  | '[' :: ']' :: rest => some ([], rest)
  | '[' :: '\n' :: rest =>
    match parseEntriesAux (rest.length + 1) rest with
    | some (es, r1) =>
      match r1 with
      | '\n' :: ']' :: r2 => some (es, r2)
      | _ => none
    | none => none
  | _ => none

/-- Parse a structured transcript serialization back into its entry
list (the whole input must be consumed). -/
def parseTranscript (s : String) : Option (List CaptionEntry) :=
  match parseEntries s.data with
  | some (es, []) => some es
  | _ => none

/-- The side condition under which the decimal rendering `renderNum` is
exact: the denominator divides the power of ten chosen by `decExp`.
This holds for every value a Python float can take (float denominators
are powers of two). -/
def DecimalRep (q : ℚ) : Prop := (q.den : ℕ) ∣ 10 ^ decExp q.den

instance (q : ℚ) : Decidable (DecimalRep q) := by
  unfold DecimalRep
  infer_instance

/-! ## `format_transcript` (youtube_transcript.py lines 32–55) -/

/-- The SRT blocks accumulated by the `for i, item in enumerate(transcript, 1)`
loop: `f"{i}\n{start_time} --> {end_time}\n{item['text']}\n\n"`. -/
def srtBlocks : ℕ → List CaptionEntry → String
  | _, [] => ""
  | i, item :: rest =>
    toString i ++ "\n" ++ format_time item.start ++ " --> " ++
      format_time (item.start + item.duration) ++ "\n" ++ item.text ++ "\n\n" ++
      srtBlocks (i + 1) rest

/-- `format_transcript` (youtube_transcript.py lines 32–55). -/
def format_transcript (transcript : List CaptionEntry) (format_type : String := "text") : String :=
  if transcript.isEmpty then ""
  else if format_type = "text" then String.intercalate "\n" (transcript.map CaptionEntry.text)
  else if format_type = "srt" then srtBlocks 1 transcript
  else if format_type = "json" then jsonDumps transcript
  else String.intercalate "\n" (transcript.map CaptionEntry.text)

/-! ## `get_transcript` (youtube_transcript.py lines 17–30) -/

/-- The outcome of the external captioning capability
(`YouTubeTranscriptApi.get_transcript`): the entry list on success, or
one of the two distinguished exceptions, or any other exception. -/
inductive FetchOutcome where
  | success (transcript : List CaptionEntry)
  | noTranscriptFound
  | transcriptsDisabled
  | otherError (msg : String)
deriving DecidableEq, Repr

/-- `get_transcript` (youtube_transcript.py lines 17–30): the returned
value together with the messages it prints.  Every exception of the
capability is caught, so the function is total. -/
def get_transcript (video_id : String) (languages : List String)
    (outcome : FetchOutcome) : Option (List CaptionEntry) × List String :=
  match languages, outcome with
  | _, .success t => (some t, [])
  | _, .noTranscriptFound =>
    (none, ["No transcript found for video " ++ video_id ++ " in the specified languages."])
  | _, .transcriptsDisabled =>
    (none, ["Transcripts are disabled for video " ++ video_id ++ "."])
  | _, .otherError e => (none, ["An error occurred: " ++ e])

/-! ## `save_transcript` and `main` (youtube_transcript.py lines 66–107) -/

/-- `save_transcript` with a succeeding filesystem: the success flag,
the printed message, and the (file, content) pair written.  (The
`except` branch that returns `False` on an I/O failure is not reached
in this model; no claim concerns it.) -/
def save_transcript (content : String) (output_file : String) :
    Bool × List String × List (String × String) :=
  (true, ["Transcript saved to " ++ output_file], [(output_file, content)])

/-- The parsed command line of the transcript script. -/
structure Args where
  url : String
  language : List String := ["en"]
  format : String := "text"
  output : Option String := none

/-- What an execution of `main` produces when no exception escapes. -/
structure MainResult where
  printed : List String
  written : List (String × String)
deriving DecidableEq, Repr

/-- `main` (youtube_transcript.py lines 77–107), parameterised by the
captioning capability.  An uncaught Python exception is `Except.error`
(the interpreter then prints a traceback and exits with status 1). -/
def main (fetch : String → List String → FetchOutcome) (args : Args) :
    Except PyErr MainResult :=
  match extract_video_id args.url with
  | .error e => .error e
  | .ok video_id =>
    let m1 := "Extracting transcript for video ID: " ++ video_id
    match get_transcript video_id args.language (fetch video_id args.language) with
    | (tr, m2) =>
      match tr with
      | some transcript =>
        -- `if transcript:` — false for `None` and for the empty list
        if transcript.isEmpty then .ok ⟨[m1] ++ m2, []⟩
        else
          let content := format_transcript transcript args.format
          let output_file := match args.output with
            | some o => o
            | none => "transcript." ++ (if args.format ≠ "text" then args.format else "txt")
          match save_transcript content output_file with
          | (_, m3, w) => .ok ⟨[m1] ++ m2 ++ m3, w⟩
      | none => .ok ⟨[m1] ++ m2, []⟩

/-- The process exit status: 0 on a normal return, 1 when an uncaught
exception aborts the interpreter. -/
def exitStatus : Except PyErr MainResult → ℕ
  | .ok _ => 0
  | .error _ => 1

/-- The files written during a run (an uncaught exception in
`extract_video_id` happens before any write). -/
def writtenFiles : Except PyErr MainResult → List (String × String)
  | .ok r => r.written
  | .error _ => []

end YT

namespace RAG

/-! ## `RAG_chatbot.py`: `SimpleRAGChatbot`

The external capabilities (FAISS similarity search, the Cohere rerank
endpoint, the OpenAI chat model) are modelled as explicit outcome
functions; a raised exception is an `Except.error`. -/

/-- A retrieved LangChain document (only `page_content` is used). -/
structure Doc where
  page_content : String
deriving DecidableEq, Repr

/-- The Cohere side of the environment: whether `CO_API_KEY` is in the
process environment, and the outcome of `co.rerank` — on success the
list of `item.index` values of the response, in response order. -/
structure CohereEnv where
  hasKey : Bool
  rerankCall : String → List String → ℕ → Except String (List ℤ)

/-- `SimpleRAGChatbot.rerank_results` (RAG_chatbot.py lines 123–152).
When the key is missing the function returns `results[:k]` before any
call; when the rerank call (or the subsequent indexing) raises, the
`except` branch returns `results[:k]`.  Python list indexing accepts
negative indices (counting from the end) and raises `IndexError` —
caught by the same `except` — outside `[-len, len)`. -/
def rerank_results (co : CohereEnv) (query : String) (results : List Doc) (k : ℕ := 15) :
    List Doc :=
  if co.hasKey = false then results.take k
  else
    match co.rerankCall query (results.map Doc.page_content) k with
    | .error _ => results.take k
    | .ok idxs =>
      if idxs.all (fun i => decide (-(results.length : ℤ) ≤ i ∧ i < (results.length : ℤ))) then
        idxs.map (fun i =>
          results.getD ((if i < 0 then i + (results.length : ℤ) else i).toNat) ⟨""⟩)
      else results.take k

/-- One conversation turn held by the `ConversationBufferMemory`. -/
inductive Turn where
  | user (text : String)
  | assistant (text : String)
deriving DecidableEq, Repr

/-- The history rendering loop of `chat` (lines 174–180):
`f"{role}: {msg.content}\n"` appended per message, role `Human` for
user messages and `Assistant` otherwise. -/
def formatHistory : List Turn → String
  | [] => ""
  | Turn.user t :: rest => "Human: " ++ t ++ "\n" ++ formatHistory rest
  | Turn.assistant t :: rest => "Assistant: " ++ t ++ "\n" ++ formatHistory rest

/-- The custom prompt f-string of `chat` (lines 183–197). -/
def mkPrompt (context formatted_history user_input : String) : String :=
  "\n            Based on the following context and conversation history, please answer the user's question.\n            Be conversational, helpful, and accurate. If the context doesn't contain relevant information,\n            acknowledge this and try to provide general guidance.\n            \n            Context:\n            " ++
  context ++
  "\n            \n            Conversation History:\n            " ++
  formatted_history ++
  "\n            \n            User Question: " ++
  user_input ++
  "\n            \n            Answer:\n            "

/-- The environment of one `chat` call: the Cohere configuration, the
FAISS `similarity_search` outcome, and the LLM `predict` outcome. -/
structure ChatEnv where
  co : CohereEnv
  similarity_search : String → ℕ → Except String (List Doc)
  llmPredict : String → Except String String

/-- The mutable state of a `SimpleRAGChatbot` that `chat` touches:
whether a vector store is loaded, and the memory's message list.
(`load_document` flips `vectorstore` to `some` and never back.) -/
structure ChatState where
  vectorstore : Option Unit
  history : List Turn
deriving DecidableEq, Repr

/-- The external calls a `chat` invocation can perform, in order. -/
inductive ExtCall where
  | similaritySearch
  | cohereRerank
  | llmPredict
deriving DecidableEq, Repr

/-- The fixed not-ready reply (RAG_chatbot.py line 157). -/
def notReadyMsg : String := "I'm not ready yet. Please load a document first."

/-- The fixed apology reply (RAG_chatbot.py line 211). -/
def apologyMsg : String := "I encountered an error processing your request. Please try again."

/-- `SimpleRAGChatbot.chat` (RAG_chatbot.py lines 154–211): the reply,
the state after the call, and the trace of external calls performed.
`memory.save_context` appends the `User` turn then the `Assistant`
turn; any exception inside the `try` returns the apology and leaves
the state as it was. -/
def chat (env : ChatEnv) (st : ChatState) (user_input : String) :
    String × ChatState × List ExtCall :=
  match st.vectorstore with
  | none => (notReadyMsg, st, [])
  | some _ =>
    match env.similarity_search user_input 10 with
    | .error _ => (apologyMsg, st, [ExtCall.similaritySearch])
    | .ok raw_results =>
      let rerankTrace := if env.co.hasKey then [ExtCall.cohereRerank] else []
      let reranked_docs := rerank_results env.co user_input raw_results
      let context := String.intercalate "\n\n" (reranked_docs.map Doc.page_content)
      let formatted_history := formatHistory st.history
      let prompt := mkPrompt context formatted_history user_input
      match env.llmPredict prompt with
      | .error _ => (apologyMsg, st, ExtCall.similaritySearch :: rerankTrace)
      | .ok response =>
        (response,
         { st with history := st.history ++ [Turn.user user_input, Turn.assistant response] },
         ExtCall.similaritySearch :: (rerankTrace ++ [ExtCall.llmPredict]))

/-- Whether a `chat` call completes its `try` block without an
exception (so that the history pair is appended). -/
def chatSucceeds (env : ChatEnv) (st : ChatState) (user_input : String) : Bool :=
  match st.vectorstore with
  | none => false
  | some _ =>
    match env.similarity_search user_input 10 with
    | .error _ => false
    | .ok raw_results =>
      (env.llmPredict (mkPrompt
        (String.intercalate "\n\n"
          ((rerank_results env.co user_input raw_results).map Doc.page_content))
        (formatHistory st.history) user_input)).isOk

/-- The memory invariant: the message list is a sequence of
User-then-Assistant pairs. -/
def alternatingPairs : List Turn → Bool
  | [] => true
  | Turn.user _ :: Turn.assistant _ :: rest => alternatingPairs rest
  | _ => false

/-- Fold a sequence of `chat` calls through the state. -/
def runChats (calls : List (ChatEnv × String)) (st : ChatState) : ChatState :=
  calls.foldl (fun s c => (chat c.1 s c.2).2.1) st

end RAG

/-! # Theorems -/

namespace YT

lemma floor_div_natCast (q : ℚ) (m : ℕ) :
    ⌊q / (m : ℚ)⌋ = q.num / ((q.den * m : ℕ) : ℤ) := by
  conv_lhs => rw [← Rat.num_div_den q, div_div]
  rw [show ((q.den : ℚ) * m) = ((q.den * m : ℕ) : ℚ) by push_cast; ring]
  exact Rat.floor_intCast_div_natCast _ _

lemma floor_eq_num_ediv_den (q : ℚ) : ⌊q⌋ = q.num / (q.den : ℤ) := by
  have h := floor_div_natCast q 1
  simpa using h

lemma pyInt_eq_floor {q : ℚ} (h : 0 ≤ q) : pyInt q = ⌊q⌋ := if_pos h

lemma pyMod_nonneg {a b : ℚ} (hb : 0 < b) : 0 ≤ pyMod a b := by
  have hb' : b ≠ 0 := ne_of_gt hb
  have : pyMod a b = b * Int.fract (a / b) := by
    unfold pyMod Int.fract
    rw [mul_sub, mul_div_cancel₀ _ hb']
  rw [this]
  exact mul_nonneg hb.le (Int.fract_nonneg _)

lemma ediv_ediv_of_nonneg (a : ℤ) (b c : ℕ) (ha : 0 ≤ a) :
    a / (b : ℤ) / (c : ℤ) = a / ((b * c : ℕ) : ℤ) := by
  lift a to ℕ using ha
  rw [← Int.ofNat_ediv, ← Int.ofNat_ediv, ← Int.ofNat_ediv, Nat.div_div_eq_div_mul]

lemma floor_q_div_ediv (q : ℚ) (hq : 0 ≤ q) (b c : ℕ) :
    ⌊q / (b : ℚ)⌋ / (c : ℤ) = ⌊q / ((b * c : ℕ) : ℚ)⌋ := by
  rw [floor_div_natCast, floor_div_natCast,
    ediv_ediv_of_nonneg _ _ _ (Rat.num_nonneg.2 hq), ← Nat.mul_assoc]

lemma minutes_eq (q : ℚ) (hq : 0 ≤ q) :
    pyInt (pyMod q 3600 / 60) = ⌊q / 60⌋ % 60 := by
  have h30 : (0:ℚ) < 3600 := by norm_num
  have h0 : (0:ℚ) ≤ pyMod q 3600 / 60 := div_nonneg (pyMod_nonneg h30) (by norm_num)
  rw [pyInt_eq_floor h0]
  have hrw : pyMod q 3600 / 60 = q / 60 - ((60 * ⌊q / 3600⌋ : ℤ) : ℚ) := by
    unfold pyMod
    push_cast
    ring
  rw [hrw, Int.floor_sub_int, Int.emod_def]
  have hdd : ⌊q / 60⌋ / (60:ℤ) = ⌊q / 3600⌋ := by
    simpa using floor_q_div_ediv q hq 60 60
  omega

lemma secs_floor_eq (q : ℚ) :
    pyInt (pyMod q 60) = ⌊q⌋ - 60 * ⌊q / 60⌋ := by
  have h60 : (0:ℚ) < 60 := by norm_num
  rw [pyInt_eq_floor (pyMod_nonneg h60)]
  have hrw : pyMod q 60 = q - ((60 * ⌊q / 60⌋ : ℤ) : ℚ) := by
    unfold pyMod
    push_cast
    ring
  rw [hrw, Int.floor_sub_int]

lemma secs_eq (q : ℚ) (hq : 0 ≤ q) :
    pyInt (pyMod q 60) = ⌊q⌋ % 60 := by
  rw [secs_floor_eq q, Int.emod_def]
  have hdd : ⌊q⌋ / (60:ℤ) = ⌊q / 60⌋ := by
    simpa using floor_q_div_ediv q hq 1 60
  omega

lemma ms_eq (q : ℚ) :
    pyInt ((pyMod q 60 - (pyInt (pyMod q 60) : ℚ)) * 1000) = ⌊(q - (⌊q⌋ : ℚ)) * 1000⌋ := by
  rw [secs_floor_eq q]
  have hrw : pyMod q 60 - ((⌊q⌋ - 60 * ⌊q / 60⌋ : ℤ) : ℚ) = q - (⌊q⌋ : ℚ) := by
    unfold pyMod
    push_cast
    ring
  rw [hrw]
  have hfr : (0:ℚ) ≤ (q - (⌊q⌋ : ℚ)) * 1000 :=
    mul_nonneg (sub_nonneg.2 (Int.floor_le q)) (by norm_num)
  exact pyInt_eq_floor hfr

lemma format_time_eq_spec (q : ℚ) (hq : 0 ≤ q) :
    format_time q = format_time_spec q := by
  simp only [format_time, format_time_spec]
  rw [pyInt_eq_floor (div_nonneg hq (by norm_num)), minutes_eq q hq, ms_eq q, secs_eq q hq]

lemma floor_mul_natCast (q : ℚ) (m : ℕ) :
    ⌊q * (m : ℚ)⌋ = (q.num * m) / (q.den : ℤ) := by
  have : q * (m : ℚ) = ((q.num * m : ℤ) : ℚ) / ((q.den : ℕ) : ℚ) := by
    conv_lhs => rw [← Rat.num_div_den q]
    push_cast
    ring
  rw [this, Rat.floor_intCast_div_natCast]

lemma format_time_eval (q : ℚ) (hq : 0 ≤ q) :
    format_time q =
      fmt0d 2 (q.num / ((q.den * 3600 : ℕ) : ℤ)) ++ ":" ++
      fmt0d 2 ((q.num / ((q.den * 60 : ℕ) : ℤ)) % 60) ++ ":" ++
      fmt0d 2 ((q.num / (q.den : ℤ)) % 60) ++ "," ++
      fmt0d 3 (q.num * 1000 / (q.den : ℤ) - 1000 * (q.num / (q.den : ℤ))) := by
  rw [format_time_eq_spec q hq]
  simp only [format_time_spec]
  have hms : ⌊(q - (⌊q⌋ : ℚ)) * 1000⌋
      = q.num * 1000 / (q.den : ℤ) - 1000 * (q.num / (q.den : ℤ)) := by
    have hr : (q - (⌊q⌋ : ℚ)) * 1000 = q * ((1000 : ℕ) : ℚ) - ((1000 * ⌊q⌋ : ℤ) : ℚ) := by
      push_cast
      ring
    rw [hr, Int.floor_sub_int, floor_mul_natCast q 1000, floor_eq_num_ediv_den]
    push_cast
    ring
  rw [hms, show (3600 : ℚ) = ((3600 : ℕ) : ℚ) by norm_num,
    show (60 : ℚ) = ((60 : ℕ) : ℚ) by norm_num,
    floor_div_natCast q 3600, floor_div_natCast q 60, floor_eq_num_ediv_den]

/-- Claim C4: the video-id resolver satisfies all three specified
cases: the short-link URL yields the last path segment with the query
string stripped, the watch URL yields the first `v` value, and any
input containing neither domain marker is returned unchanged. -/
theorem extract_video_id_cases :
    extract_video_id "https://youtu.be/abc123?t=5" = Except.ok "abc123" ∧
    extract_video_id "https://www.youtube.com/watch?v=xyz789&list=PL1" = Except.ok "xyz789" ∧
    ∀ input : String, containsStr input "youtu.be" = false →
      containsStr input "youtube.com/watch" = false →
      extract_video_id input = Except.ok input := by
  refine ⟨rfl, rfl, ?_⟩
  intro input h1 h2
  simp [extract_video_id, h1, h2]

/-- Witness for C4 at the passthrough case `"xyz789"`. -/
theorem extract_video_id_cases_witness :
    extract_video_id "xyz789" = Except.ok "xyz789" :=
  extract_video_id_cases.2.2 "xyz789" (by decide) (by decide)

/-- Claim C5: for every non-negative seconds value, `format_time`
renders `HH:MM:SS,mmm` with integer hours, minutes mod 60, seconds mod
60 and milliseconds the fractional remainder rounded down
(`format_time_spec`); and the entry with start 65.5 and duration 2.25
produces the subtitle range line `00:01:05,500 --> 00:01:07,750`. -/
theorem format_time_matches_spec (q : ℚ) (hq : 0 ≤ q) :
    format_time q = format_time_spec q ∧
    format_transcript [⟨"Hello", 65.5, 2.25⟩] "srt" =
      "1\n00:01:05,500 --> 00:01:07,750\nHello\n\n" := by
  refine ⟨format_time_eq_spec q hq, ?_⟩
  have h2 : (65.5 : ℚ) + 2.25 = mkRat 271 4 := by
    rw [Rat.mkRat_eq_div]
    norm_num
  have h1 : (65.5 : ℚ) = mkRat 131 2 := by
    rw [Rat.mkRat_eq_div]
    norm_num
  have h0 : format_transcript [⟨"Hello", 65.5, 2.25⟩] "srt" =
      toString 1 ++ "\n" ++ format_time 65.5 ++ " --> " ++
        format_time (65.5 + 2.25) ++ "\n" ++ "Hello" ++ "\n\n" ++ srtBlocks 2 [] := rfl
  rw [h0, h2, h1, format_time_eval (mkRat 131 2) (by decide),
    format_time_eval (mkRat 271 4) (by decide)]
  rfl

/-- Witness for C5 at `q = 0`. -/
theorem format_time_matches_spec_witness :
    format_time 0 = format_time_spec 0 ∧
    format_transcript [⟨"Hello", 65.5, 2.25⟩] "srt" =
      "1\n00:01:05,500 --> 00:01:07,750\nHello\n\n" :=
  format_time_matches_spec 0 (le_refl 0)

/-- Claim C6: for seconds values of 86400 (24 hours) or more the hours
field stays the full truncated quotient `seconds / 3600` — at least 24,
never wrapped — and 25 hours renders as `25:00:00,000`. -/
theorem format_time_uncapped_hours (q : ℚ) (hq : (86400 : ℚ) ≤ q) :
    format_time q = format_time_spec q ∧ 24 ≤ ⌊q / 3600⌋ ∧
    format_time 90000 = "25:00:00,000" := by
  have h0 : (0:ℚ) ≤ q := le_trans (by norm_num) hq
  refine ⟨format_time_eq_spec q h0, ?_, ?_⟩
  · rw [Int.le_floor, le_div_iff₀ (by norm_num : (0:ℚ) < 3600)]
    push_cast
    linarith
  · rw [show (90000 : ℚ) = mkRat 90000 1 by rw [Rat.mkRat_eq_div]; norm_num,
      format_time_eval (mkRat 90000 1) (by decide)]
    rfl

/-- Witness for C6 at 25 hours (90000 seconds). -/
theorem format_time_uncapped_hours_witness :
    format_time 90000 = format_time_spec 90000 ∧ 24 ≤ ⌊(90000 : ℚ) / 3600⌋ ∧
    format_time 90000 = "25:00:00,000" :=
  format_time_uncapped_hours 90000 (by norm_num)

/-- Claim C8: `get_transcript` never propagates an exception (it is a
total function of the capability outcome): it returns the entry list
with no report on success, and `none` together with exactly one report
message on each of the three failure conditions. -/
theorem get_transcript_degrades (video_id : String) (languages : List String)
    (outcome : FetchOutcome) :
    (∀ t, outcome = FetchOutcome.success t →
      get_transcript video_id languages outcome = (some t, [])) ∧
    ((∀ t, outcome ≠ FetchOutcome.success t) →
      (get_transcript video_id languages outcome).1 = none ∧
      (get_transcript video_id languages outcome).2.length = 1) := by
  cases outcome with
  | success t =>
    refine ⟨?_, ?_⟩
    · intro t' h
      cases h
      rfl
    · intro h
      exact absurd rfl (h t)
  | noTranscriptFound => exact ⟨fun _ h => (nomatch h), fun _ => ⟨rfl, rfl⟩⟩
  | transcriptsDisabled => exact ⟨fun _ h => (nomatch h), fun _ => ⟨rfl, rfl⟩⟩
  | otherError e => exact ⟨fun _ h => (nomatch h), fun _ => ⟨rfl, rfl⟩⟩

/-- Witness for C8: a success outcome and a disabled-transcripts outcome. -/
theorem get_transcript_degrades_witness :
    get_transcript "abc123" ["en"] (FetchOutcome.success [⟨"hi", 1, 2⟩])
      = (some [⟨"hi", 1, 2⟩], []) ∧
    (get_transcript "abc123" ["en"] FetchOutcome.transcriptsDisabled).1 = none ∧
    (get_transcript "abc123" ["en"] FetchOutcome.transcriptsDisabled).2.length = 1 :=
  ⟨(get_transcript_degrades "abc123" ["en"] _).1 _ rfl,
   ((get_transcript_degrades "abc123" ["en"] FetchOutcome.transcriptsDisabled).2
     (fun _ h => (nomatch h))).1,
   ((get_transcript_degrades "abc123" ["en"] FetchOutcome.transcriptsDisabled).2
     (fun _ h => (nomatch h))).2⟩

/-- Claim C10: for a non-empty entry list and any format kind outside
`text`/`srt`/`json`, `format_transcript` does not fail and returns the
plain rendering, identical to the `text` output. -/
theorem format_transcript_unknown_kind_plain (transcript : List CaptionEntry)
    (format_type : String) (hne : transcript ≠ [])
    (h1 : format_type ≠ "text") (h2 : format_type ≠ "srt") (h3 : format_type ≠ "json") :
    format_transcript transcript format_type = format_transcript transcript "text" ∧
    format_transcript transcript format_type =
      String.intercalate "\n" (transcript.map CaptionEntry.text) := by
  have hte : transcript.isEmpty = false := by
    cases transcript
    · exact absurd rfl hne
    · rfl
  constructor <;> simp [format_transcript, hte, h1, h2, h3]

/-- Witness for C10 at the kind `"xml"`. -/
theorem format_transcript_unknown_kind_plain_witness :
    format_transcript [⟨"a", 1, 2⟩] "xml" = format_transcript [⟨"a", 1, 2⟩] "text" ∧
    format_transcript [⟨"a", 1, 2⟩] "xml" =
      String.intercalate "\n" ([(⟨"a", 1, 2⟩ : CaptionEntry)].map CaptionEntry.text) :=
  format_transcript_unknown_kind_plain [⟨"a", 1, 2⟩] "xml"
    (List.cons_ne_nil _ _) (by decide) (by decide) (by decide)

/-- Claim C2 is false on the code: for the watch URL without a `v`
parameter the `KeyError` raised inside `extract_video_id` is caught
nowhere in `main`, so the process aborts with a traceback and exit
status 1 — not the claimed zero exit status with a handled report.
(No output file is written, which is the part of the claim that does
hold.) -/
theorem watch_url_missing_v_counterexample :
    extract_video_id "https://www.youtube.com/watch?list=PL1"
      = Except.error (PyErr.keyError "v") ∧
    main (fun _ _ => FetchOutcome.success [⟨"hi", 1, 2⟩])
      { url := "https://www.youtube.com/watch?list=PL1" }
      = Except.error (PyErr.keyError "v") ∧
    exitStatus (main (fun _ _ => FetchOutcome.success [⟨"hi", 1, 2⟩])
      { url := "https://www.youtube.com/watch?list=PL1" }) ≠ 0 ∧
    writtenFiles (main (fun _ _ => FetchOutcome.success [⟨"hi", 1, 2⟩])
      { url := "https://www.youtube.com/watch?list=PL1" }) = [] := by
  exact ⟨rfl, rfl, by decide, rfl⟩

/-- Claim C2 (amended): for every input that contains
`youtube.com/watch` (and not the short-link marker) and whose query
string has no `v` parameter, resolving the video id raises an uncaught
`KeyError('v')`; no output file is written, and the process terminates
with that error (exit status 1), without a handled report. -/
theorem watch_url_missing_v_amended (url : String)
    (fetch : String → List String → FetchOutcome) (language : List String)
    (format : String) (output : Option String)
    (h1 : containsStr url "youtu.be" = false)
    (h2 : containsStr url "youtube.com/watch" = true)
    (h3 : parseQsValues (urlQuery url.data) "v".data = []) :
    extract_video_id url = Except.error (PyErr.keyError "v") ∧
    main fetch { url := url, language := language, format := format, output := output }
      = Except.error (PyErr.keyError "v") ∧
    exitStatus (main fetch { url := url, language := language, format := format, output := output }) = 1 ∧
    writtenFiles (main fetch { url := url, language := language, format := format, output := output }) = [] := by
  have he : extract_video_id url = Except.error (PyErr.keyError "v") := by
    simp [extract_video_id, h1, h2, h3]
  refine ⟨he, ?_, ?_, ?_⟩ <;> simp [main, he, exitStatus, writtenFiles]

/-- Witness for the amended C2 at a concrete watch URL without `v`. -/
theorem watch_url_missing_v_amended_witness :
    extract_video_id "https://www.youtube.com/watch?t=1"
      = Except.error (PyErr.keyError "v") ∧
    main (fun _ _ => FetchOutcome.noTranscriptFound)
      { url := "https://www.youtube.com/watch?t=1", language := ["en"],
        format := "text", output := none }
      = Except.error (PyErr.keyError "v") ∧
    exitStatus (main (fun _ _ => FetchOutcome.noTranscriptFound)
      { url := "https://www.youtube.com/watch?t=1", language := ["en"],
        format := "text", output := none }) = 1 ∧
    writtenFiles (main (fun _ _ => FetchOutcome.noTranscriptFound)
      { url := "https://www.youtube.com/watch?t=1", language := ["en"],
        format := "text", output := none }) = [] :=
  watch_url_missing_v_amended "https://www.youtube.com/watch?t=1"
    (fun _ _ => FetchOutcome.noTranscriptFound) ["en"] "text" none
    (by decide) (by decide) (by decide)

end YT

namespace RAG

/-- Claim C1: whenever the reranking capability is unavailable (no
`CO_API_KEY`) or its call fails with any exception, `rerank_results`
returns exactly the first `k` candidates in retriever order, without
modification and without propagating an error (the function is total). -/
theorem rerank_fallback (co : CohereEnv) (query : String) (results : List Doc) (k : ℕ)
    (h : co.hasKey = false ∨
      ∃ e, co.rerankCall query (results.map Doc.page_content) k = Except.error e) :
    rerank_results co query results k = results.take k := by
  unfold rerank_results
  rcases h with h | ⟨e, he⟩
  · simp [h]
  · by_cases hk : co.hasKey = false
    · simp [hk]
    · simp [hk, he]

/-- Witness for C1: a missing key, and a failing rerank call. -/
theorem rerank_fallback_witness :
    rerank_results ⟨false, fun _ _ _ => Except.error "network"⟩ "q" [⟨"d1"⟩, ⟨"d2"⟩] 1
      = [⟨"d1"⟩, ⟨"d2"⟩].take 1 ∧
    rerank_results ⟨true, fun _ _ _ => Except.error "network"⟩ "q" [⟨"d1"⟩, ⟨"d2"⟩] 1
      = [⟨"d1"⟩, ⟨"d2"⟩].take 1 :=
  ⟨rerank_fallback _ "q" _ 1 (Or.inl rfl),
   rerank_fallback _ "q" _ 1 (Or.inr ⟨"network", rfl⟩)⟩

/-- Claim C9: with no vector store loaded, `chat` returns the fixed
not-ready message, leaves the state (including the history) unchanged,
and performs no external call at all. -/
theorem chat_not_ready_no_side_effects (env : ChatEnv) (st : ChatState) (user_input : String)
    (h : st.vectorstore = none) :
    chat env st user_input = (notReadyMsg, st, []) := by
  unfold chat
  rw [h]

/-- Witness for C9 at a concrete uninitialized state. -/
theorem chat_not_ready_no_side_effects_witness :
    chat ⟨⟨false, fun _ _ _ => Except.error "e"⟩,
        fun _ _ => Except.error "e", fun _ => Except.error "e"⟩
      ⟨none, []⟩ "hi" = (notReadyMsg, ⟨none, []⟩, []) :=
  chat_not_ready_no_side_effects _ _ "hi" rfl


lemma chat_state_cases (env : ChatEnv) (st : ChatState) (input : String) :
    ((chat env st input).2.1 = st) ∨
    ∃ r, (chat env st input).2.1 =
      { st with history := st.history ++ [Turn.user input, Turn.assistant r] } := by
  cases hv : st.vectorstore with
  | none => exact Or.inl (by simp [chat, hv])
  | some u =>
    cases hs : env.similarity_search input 10 with
    | error e => exact Or.inl (by simp [chat, hv, hs])
    | ok raw =>
      cases hl : env.llmPredict (mkPrompt
          (String.intercalate "\n\n"
            ((rerank_results env.co input raw).map Doc.page_content))
          (formatHistory st.history) input) with
      | error e => exact Or.inl (by simp [chat, hv, hs, hl])
      | ok r => exact Or.inr ⟨r, by simp [chat, hv, hs, hl]⟩

lemma alternatingPairs_append_pair_aux (u a : String) :
    ∀ (n : ℕ) (h : List Turn), h.length ≤ n → alternatingPairs h = true →
      alternatingPairs (h ++ [Turn.user u, Turn.assistant a]) = true := by
  intro n
  induction n with
  | zero =>
    intro h hlen _
    have hnil : h = [] := List.eq_nil_of_length_eq_zero (Nat.le_zero.1 hlen)
    subst hnil
    rfl
  | succ n ih =>
    intro h hlen hh
    rcases h with _ | ⟨u1 | a1, t⟩
    · rfl
    · rcases t with _ | ⟨u2 | a2, rest⟩
      · simp [alternatingPairs] at hh
      · simp [alternatingPairs] at hh
      · simp only [alternatingPairs] at hh
        simp only [List.cons_append, alternatingPairs]
        refine ih rest ?_ hh
        simp only [List.length_cons] at hlen
        omega
    · simp [alternatingPairs] at hh

lemma alternatingPairs_append_pair (u a : String) (h : List Turn)
    (hh : alternatingPairs h = true) :
    alternatingPairs (h ++ [Turn.user u, Turn.assistant a]) = true :=
  alternatingPairs_append_pair_aux u a h.length h (le_refl _) hh

lemma alternatingPairs_even_aux :
    ∀ (n : ℕ) (h : List Turn), h.length ≤ n → alternatingPairs h = true → 2 ∣ h.length := by
  intro n
  induction n with
  | zero =>
    intro h hlen _
    have hnil : h = [] := List.eq_nil_of_length_eq_zero (Nat.le_zero.1 hlen)
    subst hnil
    exact ⟨0, rfl⟩
  | succ n ih =>
    intro h hlen hh
    rcases h with _ | ⟨u1 | a1, t⟩
    · exact ⟨0, rfl⟩
    · rcases t with _ | ⟨u2 | a2, rest⟩
      · simp [alternatingPairs] at hh
      · simp [alternatingPairs] at hh
      · simp only [alternatingPairs] at hh
        simp only [List.length_cons] at hlen ⊢
        obtain ⟨m, hm⟩ := ih rest (by omega) hh
        exact ⟨m + 1, by omega⟩
    · simp [alternatingPairs] at hh

lemma alternatingPairs_even (h : List Turn) (hh : alternatingPairs h = true) :
    2 ∣ h.length :=
  alternatingPairs_even_aux h.length h (le_refl _) hh

/-- Claim C3: in the Ready state every `chat` call that completes
without an exception appends exactly one User-then-Assistant pair (the
User turn first, the Assistant turn carrying the returned response),
every call that hits the apology fallback returns the fixed apology
and appends nothing; consequently after any call sequence the history
is a sequence of User/Assistant pairs — alternating, of even length. -/
theorem chat_history_invariant :
    (∀ (env : ChatEnv) (st : ChatState) (input : String), st.vectorstore.isSome = true →
      (chatSucceeds env st input = true →
        (chat env st input).2.1.history
          = st.history ++ [Turn.user input, Turn.assistant (chat env st input).1]) ∧
      (chatSucceeds env st input = false →
        (chat env st input).1 = apologyMsg ∧
        (chat env st input).2.1.history = st.history)) ∧
    (∀ (calls : List (ChatEnv × String)) (st : ChatState),
      alternatingPairs st.history = true →
      alternatingPairs (runChats calls st).history = true ∧
      2 ∣ (runChats calls st).history.length) := by
  constructor
  · intro env st input hready
    rcases hv : st.vectorstore with _ | u
    · rw [hv] at hready
      simp at hready
    · constructor
      · intro hsucc
        rcases hs : env.similarity_search input 10 with e | raw
        · simp [chatSucceeds, hv, hs] at hsucc
        · rcases hl : env.llmPredict (mkPrompt
              (String.intercalate "\n\n"
                ((rerank_results env.co input raw).map Doc.page_content))
              (formatHistory st.history) input) with e | r
          · simp [chatSucceeds, hv, hs, hl, Except.isOk, Except.toBool] at hsucc
          · simp [chat, hv, hs, hl]
      · intro hfail
        rcases hs : env.similarity_search input 10 with e | raw
        · simp [chat, hv, hs]
        · rcases hl : env.llmPredict (mkPrompt
              (String.intercalate "\n\n"
                ((rerank_results env.co input raw).map Doc.page_content))
              (formatHistory st.history) input) with e | r
          · simp [chat, hv, hs, hl]
          · simp [chatSucceeds, hv, hs, hl, Except.isOk, Except.toBool] at hfail
  · intro calls
    induction calls with
    | nil =>
      intro st h
      exact ⟨h, alternatingPairs_even _ h⟩
    | cons c cs ih =>
      intro st h
      have hstep : alternatingPairs ((chat c.1 st c.2).2.1).history = true := by
        rcases chat_state_cases c.1 st c.2 with hcase | ⟨r, hcase⟩
        · rw [hcase]
          exact h
        · rw [hcase]
          exact alternatingPairs_append_pair _ _ _ h
      exact ih _ hstep

/-- Witness for C3: one successful call from the empty Ready history,
and the empty call sequence. -/
theorem chat_history_invariant_witness :
    ((chat ⟨⟨false, fun _ _ _ => Except.error "e"⟩,
        fun _ _ => Except.ok [], fun _ => Except.ok "resp"⟩
      ⟨some (), []⟩ "hi").2.1.history
        = [] ++ [Turn.user "hi", Turn.assistant ((chat ⟨⟨false, fun _ _ _ => Except.error "e"⟩,
            fun _ _ => Except.ok [], fun _ => Except.ok "resp"⟩ ⟨some (), []⟩ "hi").1)]) ∧
    (alternatingPairs (runChats [] ⟨some (), []⟩).history = true ∧
      2 ∣ (runChats [] ⟨some (), []⟩).history.length) :=
  ⟨(chat_history_invariant.1 ⟨⟨false, fun _ _ _ => Except.error "e"⟩,
      fun _ _ => Except.ok [], fun _ => Except.ok "resp"⟩ ⟨some (), []⟩ "hi" rfl).1 rfl,
   chat_history_invariant.2 [] ⟨some (), []⟩ rfl⟩

end RAG

namespace YT

lemma expectTok_append (tok r : List Char) : expectTok tok (tok ++ r) = some r := by
  induction tok with
  | nil => rfl
  | cons c ts ih => simp [expectTok, ih]

lemma parseDigitsAux_digits_append :
    ∀ (l rest : List Char) (acc cnt : ℕ),
      (∀ c ∈ l, c.isDigit = true) →
      (∀ c, rest.head? = some c → c.isDigit = false) →
      parseDigitsAux (l ++ rest) acc cnt =
        (l.foldl (fun a c => a * 10 + (c.toNat - 48)) acc, cnt + l.length, rest) := by
  intro l
  induction l with
  | nil =>
    intro rest acc cnt _ hrest
    cases hr : rest with
    | nil => simp [parseDigitsAux]
    | cons c t =>
      have hc : c.isDigit = false := hrest c (by rw [hr]; rfl)
      simp [parseDigitsAux, hc]
  | cons c t ih =>
    intro rest acc cnt hdig hrest
    have hc : c.isDigit = true := hdig c (by simp)
    simp only [List.cons_append, parseDigitsAux, hc, if_true, List.append_eq]
    rw [ih rest _ _ (fun x hx => hdig x (by simp [hx])) hrest]
    simp only [List.foldl_cons, List.length_cons]
    have h2 : cnt + 1 + t.length = cnt + (t.length + 1) := by omega
    rw [h2]

lemma digitChar_isDigit (k : ℕ) (hk : k < 10) : (Char.ofNat (48 + k)).isDigit = true := by
  interval_cases k <;> rfl

lemma digitChar_toNat (k : ℕ) (hk : k < 10) : (Char.ofNat (48 + k)).toNat = 48 + k := by
  interval_cases k <;> rfl

lemma natToCharsAux_digits :
    ∀ (fuel n : ℕ), ∀ c ∈ natToCharsAux fuel n, c.isDigit = true := by
  intro fuel
  induction fuel with
  | zero =>
    intro n c hc
    simp [natToCharsAux] at hc
  | succ f ih =>
    intro n c hc
    rcases n with _ | m
    · simp [natToCharsAux] at hc
    · simp only [natToCharsAux] at hc
      rcases List.mem_cons.1 hc with h | h
      · subst h
        exact digitChar_isDigit _ (Nat.mod_lt _ (by norm_num))
      · exact ih _ c h

lemma natToCharsAux_val :
    ∀ (fuel n acc : ℕ), n ≤ fuel →
      (natToCharsAux fuel n).reverse.foldl (fun a c => a * 10 + (c.toNat - 48)) acc
        = acc * 10 ^ (natToCharsAux fuel n).length + n := by
  intro fuel
  induction fuel with
  | zero =>
    intro n acc hn
    interval_cases n
    simp [natToCharsAux]
  | succ f ih =>
    intro n acc hn
    rcases n with _ | m
    · simp [natToCharsAux]
    · simp only [natToCharsAux, List.reverse_cons, List.foldl_append, List.length_cons]
      rw [ih ((m + 1) / 10) acc (by omega)]
      simp only [List.foldl_cons, List.foldl_nil,
        digitChar_toNat _ (Nat.mod_lt _ (by norm_num))]
      have hdm := Nat.div_add_mod (m + 1) 10
      set L := (natToCharsAux f ((m + 1) / 10)).length with hL
      rw [pow_succ]
      ring_nf
      omega

lemma natToCharsAux_length_le :
    ∀ (fuel n k : ℕ), n < 10 ^ k → (natToCharsAux fuel n).length ≤ k := by
  intro fuel
  induction fuel with
  | zero =>
    intro n k _
    simp [natToCharsAux]
  | succ f ih =>
    intro n k hk
    rcases n with _ | m
    · simp [natToCharsAux]
    · rcases k with _ | k'
      · simp at hk
      · simp only [natToCharsAux, List.length_cons]
        have hlt : (m + 1) / 10 < 10 ^ k' := by
          rw [Nat.div_lt_iff_lt_mul (by norm_num)]
          rw [pow_succ] at hk
          omega
        exact Nat.succ_le_succ (ih _ _ hlt)

lemma natToChars_digits (n : ℕ) : ∀ c ∈ natToChars n, c.isDigit = true := by
  intro c hc
  unfold natToChars at hc
  by_cases h0 : n = 0
  · simp [h0] at hc
    subst hc
    rfl
  · simp [h0] at hc
    exact natToCharsAux_digits n n c hc

lemma natToChars_ne_nil (n : ℕ) : natToChars n ≠ [] := by
  unfold natToChars
  by_cases h0 : n = 0
  · simp [h0]
  · simp [h0]
    rcases n with _ | m
    · exact absurd rfl h0
    · simp [natToCharsAux]

lemma natToChars_val0 (n : ℕ) :
    (natToChars n).foldl (fun a c => a * 10 + (c.toNat - 48)) 0 = n := by
  unfold natToChars
  by_cases h0 : n = 0
  · simp [h0]
  · simp only [h0, if_false]
    simpa using natToCharsAux_val n n 0 (le_refl n)

lemma natToChars_parse (n : ℕ) (rest : List Char)
    (hrest : ∀ c, rest.head? = some c → c.isDigit = false) :
    parseDigitsAux (natToChars n ++ rest) 0 0 = (n, (natToChars n).length, rest) := by
  rw [parseDigitsAux_digits_append _ _ _ _ (natToChars_digits n) hrest, natToChars_val0]
  simp

lemma natToChars_length_le (n k : ℕ) (h : n < 10 ^ k) (hk : 1 ≤ k) :
    (natToChars n).length ≤ k := by
  unfold natToChars
  by_cases h0 : n = 0
  · simpa [h0] using hk
  · simp only [h0, if_false, List.length_reverse]
    exact natToCharsAux_length_le n n k h

lemma foldl_replicate_zeros (k : ℕ) (l : List Char) :
    (List.replicate k '0' ++ l).foldl (fun a c => a * 10 + (c.toNat - 48)) 0
      = l.foldl (fun a c => a * 10 + (c.toNat - 48)) 0 := by
  induction k with
  | zero => rfl
  | succ m ih => simpa [List.replicate_succ] using ih

lemma padZeros_digits (e : ℕ) (l : List Char) (h : ∀ c ∈ l, c.isDigit = true) :
    ∀ c ∈ padZeros e l, c.isDigit = true := by
  intro c hc
  unfold padZeros at hc
  rcases List.mem_append.1 hc with hm | hm
  · have := List.eq_of_mem_replicate hm
    subst this
    rfl
  · exact h c hm

lemma padZeros_val (e : ℕ) (l : List Char) :
    (padZeros e l).foldl (fun a c => a * 10 + (c.toNat - 48)) 0
      = l.foldl (fun a c => a * 10 + (c.toNat - 48)) 0 :=
  foldl_replicate_zeros _ l

lemma padZeros_length (e : ℕ) (l : List Char) (h : l.length ≤ e) :
    (padZeros e l).length = e := by
  simp [padZeros]
  omega

end YT

namespace YT

lemma decMant_div_pow (q : ℚ) (hq : DecimalRep q) :
    ((decMant q : ℤ) : ℚ) / ((10 ^ decExp q.den : ℕ) : ℚ) = q := by
  unfold DecimalRep at hq
  unfold decMant
  set e := decExp q.den with he
  have hd0 : ((q.den : ℕ) : ℚ) ≠ 0 := Nat.cast_ne_zero.2 q.den_nz
  have h10 : ((10 ^ e : ℕ) : ℚ) ≠ 0 := Nat.cast_ne_zero.2 (pow_ne_zero _ (by norm_num))
  have hc : ((10 ^ e / q.den : ℕ) : ℚ) * ((q.den : ℕ) : ℚ) = ((10 ^ e : ℕ) : ℚ) := by
    exact_mod_cast Nat.div_mul_cancel hq
  have key : (q.num : ℚ) = q * ((q.den : ℕ) : ℚ) := (div_eq_iff hd0).1 (Rat.num_div_den q)
  rw [div_eq_iff h10, Int.cast_mul, Int.cast_natCast]
  linear_combination ((10 ^ e / q.den : ℕ) : ℚ) * key + q * hc

lemma mkRat_ip_fp (n e : ℕ) :
    mkRat ((n / 10 ^ e : ℕ) * 10 ^ (max e 1) + (n % 10 ^ e : ℕ) : ℤ) (10 ^ (max e 1))
      = ((n : ℕ) : ℚ) / ((10 ^ e : ℕ) : ℚ) := by
  have h10 : ((10 ^ e : ℕ) : ℚ) ≠ 0 := Nat.cast_ne_zero.2 (pow_ne_zero _ (by norm_num))
  rcases Nat.eq_zero_or_pos e with he | he
  · subst he
    rw [Rat.mkRat_eq_div]
    push_cast
    norm_num
  · have hmax : max e 1 = e := Nat.max_eq_left he
    rw [hmax, Rat.mkRat_eq_div]
    have hnum : ((n / 10 ^ e : ℕ) * 10 ^ e + (n % 10 ^ e : ℕ) : ℤ) = (n : ℤ) := by
      exact_mod_cast Nat.div_add_mod' n (10 ^ e)
    rw [hnum]
    push_cast
    ring

end YT

namespace YT

lemma parseNumber_renderNum (q : ℚ) (hq : DecimalRep q) (rest : List Char)
    (hrest : ∀ c, rest.head? = some c → c.isDigit = false) :
    parseNumber (renderNum q ++ rest) = some (q, rest) := by
  simp only [renderNum]
  set e := decExp q.den with he
  set n := (decMant q).natAbs with hn
  set F : List Char := if e = 0 then ['0'] else padZeros e (natToChars (n % 10 ^ e)) with hF
  have hFdig : ∀ c ∈ F, c.isDigit = true := by
    rw [hF]
    by_cases h0 : e = 0
    · simp [h0]
    · simp only [h0, if_false]
      exact padZeros_digits _ _ (natToChars_digits _)
  have hFlen : F.length = max e 1 := by
    rw [hF]
    by_cases h0 : e = 0
    · simp [h0]
    · simp only [h0, if_false]
      rw [padZeros_length]
      · omega
      · exact natToChars_length_le _ _ (Nat.mod_lt _ (pow_pos (by norm_num) e)) (by omega)
  have hFval : F.foldl (fun a c => a * 10 + (c.toNat - 48)) 0 = n % 10 ^ e := by
    rw [hF]
    by_cases h0 : e = 0
    · simp [h0, Nat.mod_one]
    · simp only [h0, if_false]
      rw [padZeros_val, natToChars_val0]
  have hFparse : parseDigitsAux (F ++ rest) 0 0 = (n % 10 ^ e, max e 1, rest) := by
    rw [parseDigitsAux_digits_append F rest 0 0 hFdig hrest, hFval]
    simp [hFlen]
  have hstop : ∀ c, ('.' :: (F ++ rest)).head? = some c → c.isDigit = false := by
    intro c h
    simp at h
    subst h
    rfl
  have hIparse := natToChars_parse (n / 10 ^ e) ('.' :: (F ++ rest)) hstop
  have hIlen : (natToChars (n / 10 ^ e)).length ≠ 0 := by
    simpa [List.length_eq_zero] using natToChars_ne_nil (n / 10 ^ e)
  have hfpCnt : max e 1 ≠ 0 := by omega
  by_cases hneg : q.num < 0
  · -- negative value: a minus sign is rendered and parsed back
    rw [if_pos hneg]
    simp only [parseNumber, List.cons_append, List.nil_append, List.append_assoc,
      List.head?_cons, List.tail_cons]
    simp only [decide_True, eq_self_iff_true, if_true, hIparse, hFparse, hIlen, hfpCnt, if_false]
    rw [mkRat_ip_fp n e]
    have hmneg : decMant q ≤ 0 := by
      unfold decMant
      exact mul_nonpos_of_nonpos_of_nonneg hneg.le (Int.natCast_nonneg _)
    have h1 : (((decMant q).natAbs : ℕ) : ℤ) = -(decMant q) := Int.ofNat_natAbs_of_nonpos hmneg
    have hcast : ((n : ℕ) : ℚ) = -((decMant q : ℤ) : ℚ) := by
      rw [hn, show ((((decMant q).natAbs : ℕ)) : ℚ) = ((((decMant q).natAbs : ℕ) : ℤ) : ℚ) from
        (Int.cast_natCast _).symm]
      rw [h1]
      push_cast
      ring
    rw [hcast, neg_div, neg_neg, decMant_div_pow q hq]
  · -- non-negative value: no sign character
    rw [if_neg hneg]
    simp only [List.nil_append, List.append_assoc, List.cons_append]
    obtain ⟨c0, cs0, hcons⟩ := List.exists_cons_of_ne_nil (natToChars_ne_nil (n / 10 ^ e))
    have hc0dig : c0.isDigit = true := natToChars_digits _ c0 (by rw [hcons]; simp)
    have hc0ne : c0 ≠ '-' := by
      intro hcc
      rw [hcc] at hc0dig
      simp [Char.isDigit] at hc0dig
    rw [hcons, List.cons_append]
    simp only [parseNumber, List.head?_cons]
    have hdec : (decide ((some c0 : Option Char) = some '-')) = false := by
      simp [hc0ne]
    have hdec' : ¬((decide ((some c0 : Option Char) = some '-')) = true) := by
      simpa using hc0ne
    simp only [if_neg hdec']
    rw [show (c0 :: (cs0 ++ ('.' :: (F ++ rest)))) = natToChars (n / 10 ^ e) ++ ('.' :: (F ++ rest))
      by rw [hcons, List.cons_append]]
    simp only [hIparse, hFparse, hIlen, hfpCnt, if_false]
    rw [mkRat_ip_fp n e]
    have hmpos : 0 ≤ decMant q := by
      unfold decMant
      exact mul_nonneg (not_lt.1 hneg) (Int.natCast_nonneg _)
    have h1 : (((decMant q).natAbs : ℕ) : ℤ) = decMant q := Int.natAbs_of_nonneg hmpos
    have hcast : ((n : ℕ) : ℚ) = ((decMant q : ℤ) : ℚ) := by
      rw [hn, show ((((decMant q).natAbs : ℕ)) : ℚ) = ((((decMant q).natAbs : ℕ) : ℤ) : ℚ) from
        (Int.cast_natCast _).symm]
      rw [h1]
    rw [hcast, decMant_div_pow q hq]

end YT

namespace YT

lemma hexVal_hexDigitChar (k : ℕ) (hk : k < 16) : hexVal? (hexDigitChar k) = some k := by
  interval_cases k <;> rfl

lemma char_valid_ranges (c : Char) :
    c.toNat < 55296 ∨ (57343 < c.toNat ∧ c.toNat < 1114112) := c.valid

set_option maxHeartbeats 3200000 in
lemma parseEscape_u (a b cc d : Char) (r : List Char) (x y z w : ℕ)
    (ha : hexVal? a = some x) (hb : hexVal? b = some y)
    (hc : hexVal? cc = some z) (hd : hexVal? d = some w)
    (hns1 : ¬(55296 ≤ 4096 * x + 256 * y + 16 * z + w
      ∧ 4096 * x + 256 * y + 16 * z + w < 56320))
    (hns2 : ¬(56320 ≤ 4096 * x + 256 * y + 16 * z + w
      ∧ 4096 * x + 256 * y + 16 * z + w < 57344)) :
    parseEscape ('u' :: a :: b :: cc :: d :: r)
      = some (Char.ofNat (4096 * x + 256 * y + 16 * z + w), r) := by
  simp only [parseEscape, ha, hb, hc, hd]
  rw [if_neg hns1, if_neg hns2]

set_option maxHeartbeats 3200000 in
lemma parseEscape_u_pair (a b cc d a2 b2 c2 d2 : Char) (r : List Char)
    (x y z w x2 y2 z2 w2 : ℕ)
    (ha : hexVal? a = some x) (hb : hexVal? b = some y)
    (hc : hexVal? cc = some z) (hd : hexVal? d = some w)
    (ha2 : hexVal? a2 = some x2) (hb2 : hexVal? b2 = some y2)
    (hc2 : hexVal? c2 = some z2) (hd2 : hexVal? d2 = some w2)
    (hs1 : 55296 ≤ 4096 * x + 256 * y + 16 * z + w
      ∧ 4096 * x + 256 * y + 16 * z + w < 56320)
    (hs2 : 56320 ≤ 4096 * x2 + 256 * y2 + 16 * z2 + w2
      ∧ 4096 * x2 + 256 * y2 + 16 * z2 + w2 < 57344) :
    parseEscape ('u' :: a :: b :: cc :: d :: '\\' :: 'u' :: a2 :: b2 :: c2 :: d2 :: r)
      = some (Char.ofNat (65536 + (4096 * x + 256 * y + 16 * z + w - 55296) * 1024
          + (4096 * x2 + 256 * y2 + 16 * z2 + w2 - 56320)), r) := by
  simp only [parseEscape, ha, hb, hc, hd]
  rw [if_pos hs1]
  simp only [ha2, hb2, hc2, hd2]
  rw [if_pos hs2]

lemma parseJStringBodyAux_plain (c : Char) (h1 : ¬c = '"') (h2 : ¬c = '\\')
    (fuel : ℕ) (r : List Char) :
    parseJStringBodyAux (fuel + 1) (c :: r)
      = (fun p => ((c :: p.1 : List Char), p.2)) <$> parseJStringBodyAux fuel r := by
  simp only [parseJStringBodyAux]
  rw [if_neg h1, if_neg h2]

lemma parseJStringBodyAux_esc (rest : List Char) (ch : Char) (r2 : List Char)
    (h : parseEscape rest = some (ch, r2)) (fuel : ℕ) :
    parseJStringBodyAux (fuel + 1) ('\\' :: rest)
      = (fun p => ((ch :: p.1 : List Char), p.2)) <$> parseJStringBodyAux fuel r2 := by
  simp only [parseJStringBodyAux, if_true]
  rw [h, if_neg (show ¬('\\' : Char) = '"' by decide)]

lemma parseJStringBodyAux_escapeChar (c : Char) (fuel : ℕ) (input : List Char) :
    parseJStringBodyAux (fuel + 1) (escapeChar c ++ input)
      = (fun p => ((c :: p.1 : List Char), p.2)) <$> parseJStringBodyAux fuel input := by
  by_cases h1 : c = '"'
  · subst h1
    rfl
  by_cases h2 : c = '\\'
  · subst h2
    rfl
  by_cases h3 : c = '\n'
  · subst h3
    rfl
  by_cases h4 : c = '\r'
  · subst h4
    rfl
  by_cases h5 : c = '\t'
  · subst h5
    rfl
  by_cases h6 : c.toNat = 8
  · have hc : c = Char.ofNat 8 := by
      rw [← h6, Char.ofNat_toNat]
    subst hc
    rfl
  by_cases h7 : c.toNat = 12
  · have hc : c = Char.ofNat 12 := by
      rw [← h7, Char.ofNat_toNat]
    subst hc
    rfl
  have e1 : hexVal? (hexDigitChar (c.toNat / 4096 % 16)) = some (c.toNat / 4096 % 16) :=
    hexVal_hexDigitChar _ (Nat.mod_lt _ (by norm_num))
  have e2 : hexVal? (hexDigitChar (c.toNat / 256 % 16)) = some (c.toNat / 256 % 16) :=
    hexVal_hexDigitChar _ (Nat.mod_lt _ (by norm_num))
  have e3 : hexVal? (hexDigitChar (c.toNat / 16 % 16)) = some (c.toNat / 16 % 16) :=
    hexVal_hexDigitChar _ (Nat.mod_lt _ (by norm_num))
  have e4 : hexVal? (hexDigitChar (c.toNat % 16)) = some (c.toNat % 16) :=
    hexVal_hexDigitChar _ (Nat.mod_lt _ (by norm_num))
  by_cases h8 : c.toNat < 32
  · have hesc : escapeChar c ++ input = '\\' :: 'u' :: hexDigitChar (c.toNat / 4096 % 16)
        :: hexDigitChar (c.toNat / 256 % 16) :: hexDigitChar (c.toNat / 16 % 16)
        :: hexDigitChar (c.toNat % 16) :: input := by
      simp [escapeChar, h1, h2, h3, h4, h5, h6, h7, h8, hex4]
    rw [hesc, parseJStringBodyAux_esc _ _ _
      (parseEscape_u _ _ _ _ _ _ _ _ _ e1 e2 e3 e4 (by omega) (by omega))]
    rw [show 4096 * (c.toNat / 4096 % 16) + 256 * (c.toNat / 256 % 16)
      + 16 * (c.toNat / 16 % 16) + c.toNat % 16 = c.toNat from by omega, Char.ofNat_toNat]
  by_cases h9 : c.toNat < 127
  · have hesc : escapeChar c ++ input = c :: input := by
      simp [escapeChar, h1, h2, h3, h4, h5, h6, h7, h8, h9]
    rw [hesc, parseJStringBodyAux_plain c h1 h2]
  have hval := char_valid_ranges c
  by_cases h10 : c.toNat < 65536
  · have hesc : escapeChar c ++ input = '\\' :: 'u' :: hexDigitChar (c.toNat / 4096 % 16)
        :: hexDigitChar (c.toNat / 256 % 16) :: hexDigitChar (c.toNat / 16 % 16)
        :: hexDigitChar (c.toNat % 16) :: input := by
      simp [escapeChar, h1, h2, h3, h4, h5, h6, h7, h8, h9, h10, hex4]
    rw [hesc, parseJStringBodyAux_esc _ _ _
      (parseEscape_u _ _ _ _ _ _ _ _ _ e1 e2 e3 e4 (by omega) (by omega))]
    rw [show 4096 * (c.toNat / 4096 % 16) + 256 * (c.toNat / 256 % 16)
      + 16 * (c.toNat / 16 % 16) + c.toNat % 16 = c.toNat from by omega, Char.ofNat_toNat]
  · have hub : c.toNat < 1114112 := by omega
    have f1 : hexVal? (hexDigitChar ((55296 + (c.toNat - 65536) / 1024) / 4096 % 16))
        = some ((55296 + (c.toNat - 65536) / 1024) / 4096 % 16) :=
      hexVal_hexDigitChar _ (Nat.mod_lt _ (by norm_num))
    have f2 : hexVal? (hexDigitChar ((55296 + (c.toNat - 65536) / 1024) / 256 % 16))
        = some ((55296 + (c.toNat - 65536) / 1024) / 256 % 16) :=
      hexVal_hexDigitChar _ (Nat.mod_lt _ (by norm_num))
    have f3 : hexVal? (hexDigitChar ((55296 + (c.toNat - 65536) / 1024) / 16 % 16))
        = some ((55296 + (c.toNat - 65536) / 1024) / 16 % 16) :=
      hexVal_hexDigitChar _ (Nat.mod_lt _ (by norm_num))
    have f4 : hexVal? (hexDigitChar ((55296 + (c.toNat - 65536) / 1024) % 16))
        = some ((55296 + (c.toNat - 65536) / 1024) % 16) :=
      hexVal_hexDigitChar _ (Nat.mod_lt _ (by norm_num))
    have g1 : hexVal? (hexDigitChar ((56320 + (c.toNat - 65536) % 1024) / 4096 % 16))
        = some ((56320 + (c.toNat - 65536) % 1024) / 4096 % 16) :=
      hexVal_hexDigitChar _ (Nat.mod_lt _ (by norm_num))
    have g2 : hexVal? (hexDigitChar ((56320 + (c.toNat - 65536) % 1024) / 256 % 16))
        = some ((56320 + (c.toNat - 65536) % 1024) / 256 % 16) :=
      hexVal_hexDigitChar _ (Nat.mod_lt _ (by norm_num))
    have g3 : hexVal? (hexDigitChar ((56320 + (c.toNat - 65536) % 1024) / 16 % 16))
        = some ((56320 + (c.toNat - 65536) % 1024) / 16 % 16) :=
      hexVal_hexDigitChar _ (Nat.mod_lt _ (by norm_num))
    have g4 : hexVal? (hexDigitChar ((56320 + (c.toNat - 65536) % 1024) % 16))
        = some ((56320 + (c.toNat - 65536) % 1024) % 16) :=
      hexVal_hexDigitChar _ (Nat.mod_lt _ (by norm_num))
    have hesc : escapeChar c ++ input = '\\' :: 'u'
        :: hexDigitChar ((55296 + (c.toNat - 65536) / 1024) / 4096 % 16)
        :: hexDigitChar ((55296 + (c.toNat - 65536) / 1024) / 256 % 16)
        :: hexDigitChar ((55296 + (c.toNat - 65536) / 1024) / 16 % 16)
        :: hexDigitChar ((55296 + (c.toNat - 65536) / 1024) % 16)
        :: '\\' :: 'u'
        :: hexDigitChar ((56320 + (c.toNat - 65536) % 1024) / 4096 % 16)
        :: hexDigitChar ((56320 + (c.toNat - 65536) % 1024) / 256 % 16)
        :: hexDigitChar ((56320 + (c.toNat - 65536) % 1024) / 16 % 16)
        :: hexDigitChar ((56320 + (c.toNat - 65536) % 1024) % 16)
        :: input := by
      simp [escapeChar, h1, h2, h3, h4, h5, h6, h7, h8, h9, h10, hex4]
    rw [hesc, parseJStringBodyAux_esc _ _ _
      (parseEscape_u_pair _ _ _ _ _ _ _ _ _ _ _ _ _ _ _ _ _
        f1 f2 f3 f4 g1 g2 g3 g4 (by constructor <;> omega) (by constructor <;> omega))]
    rw [show 65536 + (4096 * ((55296 + (c.toNat - 65536) / 1024) / 4096 % 16)
        + 256 * ((55296 + (c.toNat - 65536) / 1024) / 256 % 16)
        + 16 * ((55296 + (c.toNat - 65536) / 1024) / 16 % 16)
        + (55296 + (c.toNat - 65536) / 1024) % 16 - 55296) * 1024
        + (4096 * ((56320 + (c.toNat - 65536) % 1024) / 4096 % 16)
        + 256 * ((56320 + (c.toNat - 65536) % 1024) / 256 % 16)
        + 16 * ((56320 + (c.toNat - 65536) % 1024) / 16 % 16)
        + (56320 + (c.toNat - 65536) % 1024) % 16 - 56320) = c.toNat from by omega,
      Char.ofNat_toNat]

end YT

namespace YT

lemma parseJStringBodyAux_escapeChars :
    ∀ (s : List Char) (fuel : ℕ) (input : List Char), s.length + 1 ≤ fuel →
      parseJStringBodyAux fuel (escapeChars s ++ ('"' :: input)) = some (s, input) := by
  intro s
  induction s with
  | nil =>
    intro fuel input hf
    rcases fuel with _ | f
    · omega
    · rfl
  | cons c t ih =>
    intro fuel input hf
    rcases fuel with _ | f
    · simp at hf
    · simp only [escapeChars, List.append_assoc]
      rw [parseJStringBodyAux_escapeChar c f (escapeChars t ++ ('"' :: input)),
        ih f input (by simp only [List.length_cons] at hf; omega)]
      rfl

set_option maxHeartbeats 1600000 in
lemma escapeChar_length_pos (c : Char) : 1 ≤ (escapeChar c).length := by
  unfold escapeChar
  split_ifs <;> simp [hex4]

lemma escapeChars_length_ge (s : List Char) : s.length ≤ (escapeChars s).length := by
  induction s with
  | nil => simp [escapeChars]
  | cons c t ih =>
    simp only [escapeChars, List.length_append, List.length_cons]
    have := escapeChar_length_pos c
    omega

lemma parseJString_renderJString (s input : List Char) :
    parseJString (renderJString s ++ input) = some (s, input) := by
  have h1 : renderJString s ++ input = '"' :: (escapeChars s ++ ('"' :: input)) := by
    simp [renderJString]
  rw [h1]
  show parseJStringBody (escapeChars s ++ ('"' :: input)) = some (s, input)
  unfold parseJStringBody
  apply parseJStringBodyAux_escapeChars
  simp only [List.length_append, List.length_cons]
  have := escapeChars_length_ge s
  omega

end YT

namespace YT

lemma parseEntry_jsonEntry (e : CaptionEntry) (rest : List Char)
    (hs : DecimalRep e.start) (hd : DecimalRep e.duration) :
    parseEntry (jsonEntry e ++ rest) = some (e, rest) := by
  have hd1 : ∀ c, (durationKeyTok ++ (renderNum e.duration ++ (entryCloseTok ++ rest))).head?
      = some c → c.isDigit = false := by
    intro c h
    rw [show (durationKeyTok ++ (renderNum e.duration ++ (entryCloseTok ++ rest))).head?
      = some ',' from rfl] at h
    injection h with h
    subst h
    rfl
  have hd2 : ∀ c, (entryCloseTok ++ rest).head? = some c → c.isDigit = false := by
    intro c h
    rw [show (entryCloseTok ++ rest).head? = some '\n' from rfl] at h
    injection h with h
    subst h
    rfl
  have hnum1 := parseNumber_renderNum e.start hs
    (durationKeyTok ++ (renderNum e.duration ++ (entryCloseTok ++ rest))) hd1
  have hnum2 := parseNumber_renderNum e.duration hd (entryCloseTok ++ rest) hd2
  simp only [jsonEntry, List.append_assoc, parseEntry, expectTok_append,
    parseJString_renderJString, hnum1, hnum2, Option.bind_eq_bind, Option.some_bind]

lemma jsonEntry_length_pos (e : CaptionEntry) : 1 ≤ (jsonEntry e).length := by
  have h16 : 1 ≤ entryOpenTok.length := by decide
  simp [jsonEntry, List.length_append]
  omega

lemma jsonBody_length_ge : ∀ l : List CaptionEntry, l.length ≤ (jsonBody l).length := by
  intro l
  induction l with
  | nil => simp [jsonBody]
  | cons e t ih =>
    cases t with
    | nil =>
      simp only [jsonBody, List.length_singleton]
      exact jsonEntry_length_pos e
    | cons e2 t2 =>
      simp only [jsonBody, List.length_append, List.length_cons, List.length_nil]
      have h1 := jsonEntry_length_pos e
      simp only [List.length_cons] at ih
      omega

lemma parseEntriesAux_jsonBody :
    ∀ (l : List CaptionEntry) (fuel : ℕ) (rest : List Char), l ≠ [] → l.length ≤ fuel →
      (∀ e ∈ l, DecimalRep e.start ∧ DecimalRep e.duration) →
      (∀ c, rest.head? = some c → c ≠ ',') →
      parseEntriesAux fuel (jsonBody l ++ rest) = some (l, rest) := by
  intro l
  induction l with
  | nil =>
    intro fuel rest hne _ _ _
    exact absurd rfl hne
  | cons e t ih =>
    intro fuel rest hne hfuel hden hrest
    rcases fuel with _ | f
    · simp at hfuel
    cases t with
    | nil =>
      simp only [jsonBody, parseEntriesAux,
        parseEntry_jsonEntry e rest (hden e (by simp)).1 (hden e (by simp)).2,
        Option.bind_eq_bind, Option.some_bind]
      cases hr : rest with
      | nil => rfl
      | cons c rs =>
        have hc : c ≠ ',' := hrest c (by rw [hr]; rfl)
        split
        · rename_i heq
          injection heq with heq1 _
          exact absurd heq1 hc
        · rfl
    | cons e2 t2 =>
      have hsplit : jsonBody (e :: e2 :: t2) ++ rest
          = jsonEntry e ++ (',' :: '
' :: (jsonBody (e2 :: t2) ++ rest)) := by
        simp [jsonBody, List.append_assoc]
      rw [hsplit]
      simp only [parseEntriesAux,
        parseEntry_jsonEntry e _ (hden e (by simp)).1 (hden e (by simp)).2,
        Option.bind_eq_bind, Option.some_bind]
      rw [ih f rest (List.cons_ne_nil _ _)
        (by simp only [List.length_cons] at hfuel ⊢; omega)
        (fun x hx => hden x (by simp [hx])) hrest]

end YT

namespace YT

lemma parseTranscript_jsonDumps (l : List CaptionEntry) (hne : l ≠ [])
    (hden : ∀ e ∈ l, DecimalRep e.start ∧ DecimalRep e.duration) :
    parseTranscript (jsonDumps l) = some l := by
  have hE : l.isEmpty = false := by
    cases l
    · exact absurd rfl hne
    · rfl
  have hrest : ∀ c, (('\n' :: ']' :: [] : List Char)).head? = some c → c ≠ ',' := by
    intro c h
    injection h with h
    subst h
    decide
  have hfuel : l.length ≤ (jsonBody l ++ ('\n' :: ']' :: [])).length + 1 := by
    have := jsonBody_length_ge l
    simp only [List.length_append]
    omega
  have hmain := parseEntriesAux_jsonBody l ((jsonBody l ++ ('\n' :: ']' :: [])).length + 1)
    ('\n' :: ']' :: []) hne hfuel hden hrest
  unfold parseTranscript jsonDumps
  simp only [hE, Bool.false_eq_true, if_false]
  rw [show (['[', '\n'] ++ jsonBody l ++ ['\n', ']'] : List Char)
      = '[' :: '\n' :: (jsonBody l ++ ['\n', ']']) from rfl]
  simp only [parseEntries, hmain]

end YT

namespace YT

/-- Claim C7 is false at the empty caption entry list: `format_transcript`
returns `""` for an empty transcript (the `if not transcript` guard fires
before the `json` branch), and `""` is not a parseable structured
serialization of `[]` — the serializer itself would have produced `"[]"`. -/
theorem structured_roundtrip_empty_counterexample :
    format_transcript [] "json" = "" ∧
    parseTranscript (format_transcript [] "json") = none ∧
    jsonDumps [] = "[]" ∧ parseTranscript "[]" = some [] :=
  ⟨rfl, rfl, rfl, rfl⟩

/-- Claim C7 (amended): for every NON-empty caption entry list whose
numeric fields are exactly decimal-representable (true of every value a
Python float can hold), formatting with the Structured (`json`) kind and
parsing the serialization back reproduces the entry list with identical
field values — text, start and duration preserved. -/
theorem structured_roundtrip_amended (l : List CaptionEntry) (hne : l ≠ [])
    (hden : ∀ e ∈ l, DecimalRep e.start ∧ DecimalRep e.duration) :
    parseTranscript (format_transcript l "json") = some l := by
  have hE : l.isEmpty = false := by
    cases l
    · exact absurd rfl hne
    · rfl
  have hft : format_transcript l "json" = jsonDumps l := by
    simp [format_transcript, hE]
  rw [hft]
  exact parseTranscript_jsonDumps l hne hden

/-- Witness for the amended C7: a one-entry list with an escaped quote
in the text and the timestamps 65.5 and 2.25. -/
theorem structured_roundtrip_amended_witness :
    parseTranscript (format_transcript
      [⟨"He said \"hi\"", mkRat 131 2, mkRat 9 4⟩] "json")
      = some [⟨"He said \"hi\"", mkRat 131 2, mkRat 9 4⟩] :=
  structured_roundtrip_amended [⟨"He said \"hi\"", mkRat 131 2, mkRat 9 4⟩]
    (by decide) (by decide)

end YT
